import Mathlib

/-!
Verification of the event-scheduling system core (src/app.py): the
Event/Resource/Allocation data model, the conflict checker
`check_conflicts`, the conflict scanner `conflict_view`, the utilisation
report `utilisation_report`, form parsing (`parse_datetime_from_form`,
Python `datetime.strptime`) and the `add_event` commit path.

Shallow-embedding conventions:
* Timestamps are integers counting microseconds (the resolution of Python
  `datetime`); calendar datetimes are converted to microsecond counts by
  `toMicros`.  All timestamps are naive and totally ordered, as in the code.
* The SQLAlchemy store is an explicit record of three lists kept in
  insertion (primary-key) order; ORM relationship traversal (`alloc.event`,
  `alloc.resource`) becomes lookup by identifier (`findEvent`,
  `findResource`).  A store in which every foreign key resolves is
  `WellFormed`.
* Python float arithmetic on hours is modelled exactly over `ℚ`
  (each contribution is `microseconds / 3600000000`), and `round(x, 2)`
  is modelled by exact rational rounding `round2`.
* Fallible code (a `ValueError` escaping `datetime.strptime`) is modelled
  with `Option`/`Except`.
-/

/-- `events` table row (class `Event`).  A freshly constructed, unsaved
object has no primary key yet: `event_id = none`; rows read back from the
store always carry `some id`. -/
structure Event where
  event_id : Option Int
  title : String
  start_time : Int
  end_time : Int
  description : String
deriving DecidableEq, Repr

/-- `resources` table row (class `Resource`). -/
structure Resource where
  resource_id : Int
  resource_name : String
  resource_type : String
deriving DecidableEq, Repr

/-- `event_resource_allocations` table row (class `EventResourceAllocation`);
foreign keys are stored as identifiers. -/
structure EventResourceAllocation where
  allocation_id : Int
  event_id : Int
  resource_id : Int
deriving DecidableEq, Repr

/-- The database state: the three tables in insertion order. -/
structure Store where
  events : List Event
  resources : List Resource
  allocations : List EventResourceAllocation
deriving DecidableEq, Repr

/-- ORM traversal `alloc.event`: the stored event with the given primary
key. -/
def findEvent (s : Store) (id : Int) : Option Event :=
  s.events.find? (fun e => e.event_id = some id)

/-- ORM traversal `alloc.resource`: the stored resource with the given
primary key. -/
def findResource (s : Store) (id : Int) : Option Resource :=
  s.resources.find? (fun r => r.resource_id = id)

/-- Every allocation's foreign keys resolve (guaranteed by the `nullable
=False` foreign-key columns of the schema). -/
def WellFormed (s : Store) : Prop :=
  ∀ a ∈ s.allocations,
    (∃ e, findEvent s a.event_id = some e) ∧
    (∃ r, findResource s a.resource_id = some r)

/-- The interval-overlap test of the docstring of `check_conflicts`:
`new_start < existing_end AND new_end > existing_start`. -/
def overlaps (startA endA startB endB : Int) : Bool :=
  startA < endB && endA > startB

/-- Body of the inner loop of `check_conflicts` (src/app.py lines 87-100):
the conflict message produced for one existing allocation, or `none` when
the allocation is skipped (self-edit) or does not overlap. -/
def conflictMsg (s : Store) (event : Event) (alloc : EventResourceAllocation) :
    Option String :=
  match findEvent s alloc.event_id, findResource s alloc.resource_id with
  | some other_event, some res =>
    if other_event.event_id = event.event_id then
      none
    else if event.start_time < other_event.end_time ∧
        event.end_time > other_event.start_time then
      some ("Resource \x27" ++ res.resource_name ++
        "\x27 is already booked by event \x27" ++ other_event.title ++
        "\x27 from " ++ toString other_event.start_time ++ " to " ++
        toString other_event.end_time ++ ".")
    else
      none
  | _, _ => none

/-- `check_conflicts(event, resource_ids)` (src/app.py lines 70-101). -/
def check_conflicts (s : Store) (event : Event) (resource_ids : List Int) :
    List String :=
  if event.start_time ≥ event.end_time then
    ["Event start time must be before end time."]
  else
    resource_ids.flatMap (fun resource_id =>
      (s.allocations.filter (fun a => a.resource_id = resource_id)).filterMap
        (conflictMsg s event))

/-- `check_conflicts` viewed as a state transformer: the body issues only
queries (no `db.session.add` / `commit`), so the store component is passed
through unchanged. -/
def check_conflicts_op (s : Store) (event : Event) (resource_ids : List Int) :
    Store × List String :=
  (s, check_conflicts s event resource_ids)

/-- A record of the `conflicts` list built by `conflict_view`:
`{"resource": ..., "event1": ..., "event2": ...}`. -/
structure ConflictRecord where
  resource : String
  event1 : Event
  event2 : Event
deriving DecidableEq, Repr

/-- Body of the doubly nested loop of `conflict_view` (src/app.py lines
290-305) for the allocation pair `(a1, a2)`: the emitted record, or `none`
when the pair is not a conflict. -/
def pairRecord (s : Store) (a1 a2 : EventResourceAllocation) :
    Option ConflictRecord :=
  if a1.resource_id ≠ a2.resource_id then
    none
  else
    match findEvent s a1.event_id, findEvent s a2.event_id,
        findResource s a1.resource_id with
    | some e1, some e2, some res =>
      if e1.start_time < e2.end_time ∧ e1.end_time > e2.start_time then
        some { resource := res.resource_name, event1 := e1, event2 := e2 }
      else
        none
    | _, _, _ => none

/-- The index pairs visited by `for i in range(n): for j in range(i+1, n)`,
in visiting order. -/
def indexPairs (n : Nat) : List (Nat × Nat) :=
  (List.range n).flatMap (fun i =>
    (List.range' (i + 1) (n - (i + 1))).map (fun j => (i, j)))

/-- `conflict_view` (src/app.py lines 279-307): the naive pairwise scan of
all allocations. -/
def conflict_view (s : Store) : List ConflictRecord :=
  (indexPairs s.allocations.length).filterMap (fun p =>
    match s.allocations[p.1]?, s.allocations[p.2]? with
    | some a1, some a2 => pairRecord s a1 a2
    | _, _ => none)

/-- Numeric value of a decimal digit character. -/
def digitVal (c : Char) : Nat := c.toNat - 48

/-- One numeric field of a Python `strptime` format regex: the field
accepts two digits when `valid2` holds of their value, otherwise falls
back to a single digit accepted when `valid1` holds (the single-digit
alternative can only complete the match when the following character is
not a digit, which is exactly the case reached here). -/
def parseNumField (valid2 valid1 : Nat → Bool) (l : List Char) :
    Option (Nat × List Char) :=
  match l with
  | [] => none
  | c1 :: rest1 =>
    if c1.isDigit then
      match rest1 with
      | c2 :: rest2 =>
        if c2.isDigit then
          if valid2 (digitVal c1 * 10 + digitVal c2) then
            some (digitVal c1 * 10 + digitVal c2, rest2)
          else
            none
        else
          if valid1 (digitVal c1) then some (digitVal c1, rest1) else none
      | [] =>
        if valid1 (digitVal c1) then some (digitVal c1, rest1) else none
    else
      none

/-- A literal character of a `strptime` format (the format regex is
compiled with `IGNORECASE`, so letters are matched case-insensitively). -/
def expectChar (c : Char) (l : List Char) : Option (List Char) :=
  match l with
  | [] => none
  | x :: rest => if x.toLower = c.toLower then some rest else none

/-- The `%Y` directive: exactly four digits. -/
def parseYear (l : List Char) : Option (Nat × List Char) :=
  match l with
  | c1 :: c2 :: c3 :: c4 :: rest =>
    if c1.isDigit && c2.isDigit && c3.isDigit && c4.isDigit then
      some (digitVal c1 * 1000 + digitVal c2 * 100 + digitVal c3 * 10 +
        digitVal c4, rest)
    else
      none
  | _ => none

/-- The `%m` directive: `1[0-2]|0[1-9]|[1-9]`. -/
def parseMonth (l : List Char) : Option (Nat × List Char) :=
  parseNumField (fun v => 1 ≤ v && v ≤ 12) (fun v => 1 ≤ v && v ≤ 9) l

/-- The `%d` directive: `3[0-1]|[1-2]\d|0[1-9]|[1-9]| [1-9]`.  The final
alternative is a space-padded single day digit; it is the only alternative
that can apply when the field starts with a space, and the digit-first
alternatives behave like the other two-or-one-digit fields. -/
def parseDay (l : List Char) : Option (Nat × List Char) :=
  match l with
  | c :: rest =>
    if c = Char.ofNat 32 then
      match rest with
      | c2 :: rest2 =>
        if c2.isDigit && 1 ≤ digitVal c2 && digitVal c2 ≤ 9 then
          some (digitVal c2, rest2)
        else
          none
      | [] => none
    else
      parseNumField (fun v => 1 ≤ v && v ≤ 31) (fun v => 1 ≤ v && v ≤ 9) l
  | [] => none

/-- Leap-year test of the proleptic Gregorian calendar used by
`datetime.date`. -/
def isLeap (y : Nat) : Bool :=
  (y % 4 = 0 && y % 100 ≠ 0) || y % 400 = 0

/-- Number of days in a month, as validated by the `datetime` constructor. -/
def daysInMonth (y m : Nat) : Nat :=
  if m = 2 then (if isLeap y then 29 else 28)
  else if m = 4 ∨ m = 6 ∨ m = 9 ∨ m = 11 then 30
  else 31

/-- A parsed naive datetime at minute precision. -/
structure DateTimeMin where
  year : Nat
  month : Nat
  day : Nat
  hour : Nat
  minute : Nat
deriving DecidableEq, Repr

/-- Validation performed by the `datetime` constructor after the format
regex matched: `MINYEAR <= year` (the regex already bounds it by 9999) and
the day must exist in the month; the other fields are already within range
by construction of the directives. -/
def ctorValid (dt : DateTimeMin) : Bool :=
  1 ≤ dt.year && 1 ≤ dt.day && dt.day ≤ daysInMonth dt.year dt.month

/-- `datetime.strptime(value, "%Y-%m-%d")`, returning `none` where Python
raises `ValueError`. -/
def strptimeYmd (value : String) : Option DateTimeMin :=
  match parseYear value.toList with
  | none => none
  | some (y, r1) =>
    match expectChar (Char.ofNat 45) r1 with
    | none => none
    | some r2 =>
      match parseMonth r2 with
      | none => none
      | some (m, r3) =>
        match expectChar (Char.ofNat 45) r3 with
        | none => none
        | some r4 =>
          match parseDay r4 with
          | none => none
          | some (d, r5) =>
            if r5 = [] then
              let dt : DateTimeMin := ⟨y, m, d, 0, 0⟩
              if ctorValid dt then some dt else none
            else
              none

/-- Days contributed by the whole months preceding month `m` of year `y`. -/
def daysBeforeMonth (y m : Nat) : Nat :=
  ((List.range (m - 1)).map (fun i => daysInMonth y (i + 1))).sum

/-- Proleptic-Gregorian day count since 0001-01-01 (the `datetime` date
ordinal, shifted by one). -/
def toOrdinal (y m d : Nat) : Nat :=
  365 * (y - 1) + (y - 1) / 4 - (y - 1) / 100 + (y - 1) / 400 +
    daysBeforeMonth y m + (d - 1)

/-- Microseconds in one day. -/
def usPerDay : Nat := 86400000000

/-- A naive `datetime` as a microsecond count on the absolute timeline
(Python `datetime` has microsecond resolution). -/
def toMicros (dt : DateTimeMin) : Int :=
  ((toOrdinal dt.year dt.month dt.day) * usPerDay +
    dt.hour * 3600000000 + dt.minute * 60000000 : Nat)

/-- `round(x, 2)` on the accumulated hours, modelled as exact rational
rounding to two decimal places. -/
def round2 (q : ℚ) : ℚ := (round (q * 100) : ℤ) / 100

/-- Stable insertion of an event into a list sorted by `start_time`
ascending; an element already in the list keeps its place when the keys
tie, matching Python's stable `sorted`. -/
def insertByStart (e : Event) : List Event → List Event
  | [] => [e]
  | x :: xs =>
    if x.start_time < e.start_time then x :: insertByStart e xs
    else e :: x :: xs

/-- `sorted(resource_upcoming, key=lambda e: e.start_time)`. -/
def sortByStart : List Event → List Event
  | [] => []
  | x :: xs => insertByStart x (sortByStart xs)

/-- One `report_data` entry of `utilisation_report`. -/
structure ResourceReportRow where
  resource : Resource
  total_hours : ℚ
  upcoming : List Event
deriving DecidableEq, Repr

/-- Body of the per-allocation loop of `utilisation_report` (src/app.py
lines 346-359), threading the accumulator `(total_hours,
resource_upcoming)`.  `datetime.now()` is modelled as the fixed instant
`now`. -/
def reportStep (s : Store) (start_date end_date now : Int)
    (acc : ℚ × List Event) (alloc : EventResourceAllocation) :
    ℚ × List Event :=
  match findEvent s alloc.event_id with
  | none => acc
  | some event =>
    if event.start_time ≤ end_date ∧ event.end_time ≥ start_date then
      let acc1 :=
        if max event.start_time start_date < min event.end_time end_date then
          (acc.1 +
            ((min event.end_time end_date -
              max event.start_time start_date : Int) : ℚ) / 3600000000,
            acc.2)
        else acc
      if event.start_time ≥ now then (acc1.1, acc1.2 ++ [event]) else acc1
    else acc

/-- The per-resource body of `utilisation_report` (src/app.py lines
340-365): `resource.allocations` is the list of allocations referencing
the resource, in store order. -/
def resourceReport (s : Store) (start_date end_date now : Int)
    (r : Resource) : ResourceReportRow :=
  let allocations := s.allocations.filter (fun a => a.resource_id = r.resource_id)
  let acc := allocations.foldl (reportStep s start_date end_date now) (0, [])
  { resource := r, total_hours := round2 acc.1,
    upcoming := sortByStart acc.2 }

/-- What the report template receives. -/
structure ReportRender where
  flash : List String
  report_data : List ResourceReportRow
  upcoming : List (Resource × Event)
deriving DecidableEq, Repr

/-- The POST branch of `utilisation_report` (src/app.py lines 314-377).
Missing or empty date strings flash a validation message and render with
no data; a string `datetime.strptime` cannot parse raises (`Except.error`);
otherwise `end_date` is widened to `datetime.max.time()` of its day
(23:59:59.999999, i.e. the day start plus `usPerDay - 1` microseconds)
and every resource is aggregated. -/
def utilisation_report (s : Store) (start_str end_str : Option String)
    (now : Int) : Except Unit ReportRender :=
  match start_str, end_str with
  | some ss, some es =>
    if ss = "" ∨ es = "" then
      Except.ok { flash := ["Start date and end date are required."],
                  report_data := [], upcoming := [] }
    else
      match strptimeYmd ss with
      | none => Except.error ()
      | some sdt =>
        match strptimeYmd es with
        | none => Except.error ()
        | some edt =>
          let start_date := toMicros sdt
          let end_date := toMicros edt + (usPerDay - 1 : Nat)
          let report_data :=
            s.resources.map (resourceReport s start_date end_date now)
          let upcoming := report_data.flatMap (fun row =>
            row.upcoming.map (fun ev => (row.resource, ev)))
          Except.ok { flash := [], report_data := report_data,
                      upcoming := upcoming }
  | _, _ =>
    Except.ok { flash := ["Start date and end date are required."],
                report_data := [], upcoming := [] }

/-- The POST branch of `add_event` (src/app.py lines 182-228).  `flush`
assigning the autoincremented primary keys is modelled by the parameters
`new_event_id` (the fresh event key) and `alloc_id0` (first fresh
allocation key).  Returns the new store and the flashed messages. -/
def add_event (s : Store) (title description : String)
    (start_time end_time : Option Int) (selected_resource_ids : List Int)
    (new_event_id alloc_id0 : Int) : Store × List String :=
  match start_time, end_time with
  | some st, some en =>
    if title = "" then
      (s, ["Title, start time, and end time are required."])
    else
      let event : Event := { event_id := none, title := title,
                             start_time := st, end_time := en,
                             description := description }
      let conflicts := check_conflicts s event selected_resource_ids
      if conflicts ≠ [] then
        (s, conflicts)
      else
        let saved : Event := { event with event_id := some new_event_id }
        let newAllocs := selected_resource_ids.enum.map (fun p =>
          { allocation_id := alloc_id0 + (p.1 : Int),
            event_id := new_event_id,
            resource_id := p.2 : EventResourceAllocation })
        ({ events := s.events ++ [saved], resources := s.resources,
           allocations := s.allocations ++ newAllocs },
         ["Event added successfully!"])
  | _, _ => (s, ["Title, start time, and end time are required."])

/-- `event.allocations` read back for a stored event: the allocation rows
referencing its primary key, in store order. -/
def allocationsOf (s : Store) (eid : Int) : List EventResourceAllocation :=
  s.allocations.filter (fun a => a.event_id = eid)

/-- Modelled from the spec: the hour contribution of one allocation to a
report window — the clipped overlap width in hours when the event passes
the inclusive boundary test and the clip is positive, zero otherwise. -/
def windowContribution (s : Store) (windowStart windowEnd : Int)
    (a : EventResourceAllocation) : ℚ :=
  match findEvent s a.event_id with
  | none => 0
  | some event =>
    if event.start_time ≤ windowEnd ∧ event.end_time ≥ windowStart then
      if max event.start_time windowStart < min event.end_time windowEnd then
        ((min event.end_time windowEnd -
          max event.start_time windowStart : Int) : ℚ) / 3600000000
      else 0
    else 0

/-- The event an allocation adds to the upcoming-booking list: its event,
provided it passes the inclusive window test (the guard the upcoming check
is nested inside) and starts at or after `now`. -/
def upcomingOf (s : Store) (windowStart windowEnd now : Int)
    (a : EventResourceAllocation) : Option Event :=
  match findEvent s a.event_id with
  | none => none
  | some event =>
    if (event.start_time ≤ windowEnd ∧ event.end_time ≥ windowStart) ∧
        event.start_time ≥ now then
      some event
    else none

theorem reportStep_eq (s : Store) (ws we now : Int) (acc : ℚ × List Event)
    (a : EventResourceAllocation) :
    reportStep s ws we now acc a =
      (acc.1 + windowContribution s ws we a,
       acc.2 ++ (upcomingOf s ws we now a).toList) := by
  unfold reportStep windowContribution upcomingOf
  cases hfe : findEvent s a.event_id with
  | none => simp
  | some event =>
    by_cases hw : event.start_time ≤ we ∧ event.end_time ≥ ws
    · by_cases hc : max event.start_time ws < min event.end_time we <;>
        by_cases hn : event.start_time ≥ now <;>
        simp [hw, hc, hn]
    · by_cases hn : event.start_time ≥ now <;> simp [hw, hn]

theorem foldl_reportStep (s : Store) (ws we now : Int)
    (l : List EventResourceAllocation) (t : ℚ) (u : List Event) :
    l.foldl (reportStep s ws we now) (t, u) =
      (t + (l.map (windowContribution s ws we)).sum,
       u ++ l.filterMap (upcomingOf s ws we now)) := by
  induction l generalizing t u with
  | nil => simp
  | cons a l ih =>
    rw [List.foldl_cons, reportStep_eq, ih]
    cases h : upcomingOf s ws we now a
    all_goals simp [h, List.filterMap_cons, add_assoc]

theorem resourceReport_eq (s : Store) (ws we now : Int) (r : Resource) :
    resourceReport s ws we now r =
      { resource := r,
        total_hours := round2
          (((s.allocations.filter (fun a => a.resource_id = r.resource_id)).map
            (windowContribution s ws we)).sum),
        upcoming := sortByStart
          ((s.allocations.filter (fun a => a.resource_id = r.resource_id)).filterMap
            (upcomingOf s ws we now)) } := by
  simp only [resourceReport]
  rw [foldl_reportStep]
  simp

theorem mem_insertByStart (e y : Event) (l : List Event) :
    y ∈ insertByStart e l ↔ y = e ∨ y ∈ l := by
  induction l with
  | nil => simp [insertByStart]
  | cons x xs ih =>
    unfold insertByStart
    by_cases h : x.start_time < e.start_time
    all_goals simp [h, ih]
    all_goals tauto

theorem pairwise_insertByStart (e : Event) (l : List Event)
    (h : l.Pairwise (fun a b => a.start_time ≤ b.start_time)) :
    (insertByStart e l).Pairwise (fun a b => a.start_time ≤ b.start_time) := by
  induction l with
  | nil => simp [insertByStart]
  | cons x xs ih =>
    rcases List.pairwise_cons.mp h with ⟨hx, hxs⟩
    unfold insertByStart
    by_cases hlt : x.start_time < e.start_time
    · rw [if_pos hlt]
      refine List.pairwise_cons.mpr ⟨?_, ih hxs⟩
      intro y hy
      rcases (mem_insertByStart e y xs).mp hy with rfl | hmem
      · exact le_of_lt hlt
      · exact hx y hmem
    · rw [if_neg hlt]
      refine List.pairwise_cons.mpr ⟨?_, h⟩
      intro y hy
      rcases List.mem_cons.mp hy with rfl | hmem
      · exact le_of_not_lt hlt
      · exact le_trans (le_of_not_lt hlt) (hx y hmem)

theorem pairwise_sortByStart (l : List Event) :
    (sortByStart l).Pairwise (fun a b => a.start_time ≤ b.start_time) := by
  induction l with
  | nil => simp [sortByStart]
  | cons x xs ih => exact pairwise_insertByStart x (sortByStart xs) ih

theorem pairRecord_eq_some_iff (s : Store) (a1 a2 : EventResourceAllocation)
    (r : ConflictRecord) :
    pairRecord s a1 a2 = some r ↔
      a1.resource_id = a2.resource_id ∧
      ∃ e1 e2 res,
        findEvent s a1.event_id = some e1 ∧
        findEvent s a2.event_id = some e2 ∧
        findResource s a1.resource_id = some res ∧
        e1.start_time < e2.end_time ∧ e2.start_time < e1.end_time ∧
        r = ⟨res.resource_name, e1, e2⟩ := by
  unfold pairRecord
  by_cases hr : a1.resource_id = a2.resource_id
  · rw [if_neg (by simp [hr])]
    cases h1 : findEvent s a1.event_id with
    | none => simp [hr]
    | some e1 =>
      cases h2 : findEvent s a2.event_id with
      | none => simp [hr]
      | some e2 =>
        cases h3 : findResource s a1.resource_id with
        | none => simp [hr]
        | some res =>
          by_cases hov : e1.start_time < e2.end_time ∧ e1.end_time > e2.start_time
          · simp only [if_pos hov, hr, true_and, Option.some_inj]
            constructor
            · rintro rfl
              exact ⟨e1, e2, res, rfl, rfl, rfl, hov.1, hov.2, rfl⟩
            · rintro ⟨f1, f2, fres, hf1, hf2, hf3, _, _, rfl⟩
              subst hf1; subst hf2; subst hf3
              rfl
          · simp only [if_neg hov, hr, true_and, Option.some_inj]
            constructor
            · intro h; exact absurd h (by simp)
            · rintro ⟨f1, f2, fres, hf1, hf2, hf3, ho1, ho2, rfl⟩
              subst hf1; subst hf2; subst hf3
              exact absurd ⟨ho1, ho2⟩ hov
  · rw [if_pos hr]
    simp [hr]

theorem nodup_range' (a n : Nat) : (List.range' a n).Nodup := by
  induction n generalizing a with
  | zero => simp
  | succ k ih =>
    rw [List.range'_succ]
    refine List.Nodup.cons ?_ (ih (a + 1))
    intro h
    have := (List.mem_range'_1).mp h
    omega

theorem mem_indexPairs (n i j : Nat) :
    (i, j) ∈ indexPairs n ↔ i < j ∧ j < n := by
  unfold indexPairs
  simp only [List.mem_flatMap, List.mem_range, List.mem_map, List.mem_range'_1,
    Prod.mk.injEq]
  constructor
  · rintro ⟨a, ha, b, ⟨hb1, hb2⟩, rfl, rfl⟩
    omega
  · rintro ⟨hij, hjn⟩
    exact ⟨i, by omega, j, ⟨by omega, by omega⟩, rfl, rfl⟩

theorem nodup_indexPairs (n : Nat) : (indexPairs n).Nodup := by
  unfold indexPairs
  rw [List.nodup_flatMap]
  constructor
  · intro i _
    exact List.Nodup.map (fun a b h => (Prod.mk.injEq _ _ _ _).mp h |>.2)
      (nodup_range' _ _)
  · have hlt : (List.range n).Pairwise (· < ·) := List.pairwise_lt_range n
    refine hlt.imp ?_
    intro a b hab
    simp only [Function.onFun, List.disjoint_left]
    rintro ⟨x, y⟩ hx hy
    simp only [List.mem_map, Prod.mk.injEq] at hx hy
    rcases hx with ⟨_, _, rfl, _⟩
    rcases hy with ⟨_, _, rfl, _⟩
    omega

theorem mem_conflict_view (s : Store) (r : ConflictRecord) :
    r ∈ conflict_view s ↔
      ∃ i j, i < j ∧ j < s.allocations.length ∧
        ∃ a1 a2, s.allocations[i]? = some a1 ∧ s.allocations[j]? = some a2 ∧
          pairRecord s a1 a2 = some r := by
  unfold conflict_view
  rw [List.mem_filterMap]
  constructor
  · rintro ⟨⟨i, j⟩, hp, hmatch⟩
    rcases (mem_indexPairs _ i j).mp hp with ⟨hij, hjn⟩
    refine ⟨i, j, hij, hjn, ?_⟩
    cases h1 : s.allocations[i]? with
    | none => rw [h1] at hmatch; simp at hmatch
    | some a1 =>
      cases h2 : s.allocations[j]? with
      | none => rw [h1, h2] at hmatch; simp at hmatch
      | some a2 =>
        rw [h1, h2] at hmatch
        exact ⟨a1, a2, rfl, rfl, hmatch⟩
  · rintro ⟨i, j, hij, hjn, a1, a2, h1, h2, hrec⟩
    refine ⟨(i, j), (mem_indexPairs _ i j).mpr ⟨hij, hjn⟩, ?_⟩
    rw [h1, h2]
    exact hrec

theorem conflictMsg_ne_none_iff (s : Store) (ev : Event)
    (a : EventResourceAllocation) :
    conflictMsg s ev a ≠ none ↔
      ∃ other res, findEvent s a.event_id = some other ∧
        findResource s a.resource_id = some res ∧
        other.event_id ≠ ev.event_id ∧
        ev.start_time < other.end_time ∧ other.start_time < ev.end_time := by
  unfold conflictMsg
  cases h1 : findEvent s a.event_id with
  | none => simp
  | some other =>
    cases h2 : findResource s a.resource_id with
    | none => simp
    | some res =>
      by_cases hid : other.event_id = ev.event_id
      · simp [hid]
      · by_cases hov : ev.start_time < other.end_time ∧
            ev.end_time > other.start_time
        · simp [hid, hov.1, hov.2]
        · simp only [if_neg hid, if_neg hov, ne_eq, not_true_eq_false,
            false_iff, not_exists, Option.some_inj]
          rintro f fres ⟨rfl, rfl, _, ho1, ho2⟩
          exact hov ⟨ho1, ho2⟩

/-- Concrete fixtures used by witnesses and counterexamples. -/
def evA : Event := ⟨some 1, "A", 9, 10, ""⟩

def evB : Event := ⟨some 2, "B", 10, 11, ""⟩

def resR : Resource := ⟨1, "Room", "room"⟩

def allocA : EventResourceAllocation := ⟨1, 1, 1⟩

def allocB : EventResourceAllocation := ⟨2, 2, 1⟩

/-- A store with two boundary-touching events booked on one resource. -/
def storeTouch : Store := ⟨[evA, evB], [resR], [allocA, allocB]⟩

/-- C1: the overlap test used by the checker and the scanner holds exactly
when both strict inequalities hold (`startA < endB` and `startB < endA`):
the checker emits a message only under that test, the scanner emits a
record only under that test, and two events that merely touch at a
boundary are never reported by either. -/
theorem c1_overlap_strict (s : Store) (ev : Event)
    (a a1 a2 : EventResourceAllocation) :
    (∀ startA endA startB endB : Int,
      overlaps startA endA startB endB = true ↔ startA < endB ∧ startB < endA)
    ∧ (conflictMsg s ev a ≠ none ↔
        ∃ other res, findEvent s a.event_id = some other ∧
          findResource s a.resource_id = some res ∧
          other.event_id ≠ ev.event_id ∧
          overlaps ev.start_time ev.end_time other.start_time other.end_time
            = true)
    ∧ (∀ r, pairRecord s a1 a2 = some r →
        overlaps r.event1.start_time r.event1.end_time r.event2.start_time
          r.event2.end_time = true)
    ∧ (∀ other, findEvent s a.event_id = some other →
        ev.end_time = other.start_time ∨ other.end_time = ev.start_time →
        conflictMsg s ev a = none)
    ∧ (∀ e1 e2, findEvent s a1.event_id = some e1 →
        findEvent s a2.event_id = some e2 →
        e1.end_time = e2.start_time ∨ e2.end_time = e1.start_time →
        pairRecord s a1 a2 = none) := by
  have hb : ∀ startA endA startB endB : Int,
      overlaps startA endA startB endB = true ↔
        startA < endB ∧ startB < endA := by
    intro sA eA sB eB
    simp [overlaps]
  refine ⟨hb, ?_, ?_, ?_, ?_⟩
  · rw [conflictMsg_ne_none_iff]
    constructor
    · rintro ⟨other, res, h1, h2, h3, h4, h5⟩
      exact ⟨other, res, h1, h2, h3, (hb _ _ _ _).mpr ⟨h4, h5⟩⟩
    · rintro ⟨other, res, h1, h2, h3, h4⟩
      rcases (hb _ _ _ _).mp h4 with ⟨h5, h6⟩
      exact ⟨other, res, h1, h2, h3, h5, h6⟩
  · intro r hr
    rcases (pairRecord_eq_some_iff s a1 a2 r).mp hr with
      ⟨_, e1, e2, res, _, _, _, ho1, ho2, rfl⟩
    exact (hb _ _ _ _).mpr ⟨ho1, ho2⟩
  · intro other hfe htouch
    by_cases h : conflictMsg s ev a = none
    · exact h
    · exfalso
      rcases (conflictMsg_ne_none_iff s ev a).mp h with
        ⟨other2, res, hfe2, _, _, ho1, ho2⟩
      rw [hfe] at hfe2
      cases hfe2
      rcases htouch with ht | ht <;> omega
  · intro e1 e2 hf1 hf2 htouch
    cases hrec : pairRecord s a1 a2 with
    | none => rfl
    | some r =>
      exfalso
      rcases (pairRecord_eq_some_iff s a1 a2 r).mp hrec with
        ⟨_, f1, f2, res, hg1, hg2, _, ho1, ho2, rfl⟩
      rw [hf1] at hg1
      rw [hf2] at hg2
      cases hg1
      cases hg2
      rcases htouch with ht | ht <;> omega

theorem c1_overlap_strict_witness :
    conflictMsg storeTouch evB allocA = none ∧
    pairRecord storeTouch allocA allocB = none := by
  constructor
  · exact (c1_overlap_strict storeTouch evB allocA allocA allocB).2.2.2.1 evA
      (by decide) (Or.inr (by decide))
  · exact (c1_overlap_strict storeTouch evB allocA allocA allocB).2.2.2.2 evA
      evB (by decide) (by decide) (Or.inl (by decide))

/-- C2: an invalid time range (start at or after end) makes
`check_conflicts` return exactly the single invalid-range message, for
every store and every resource-id list — no resource or allocation scan
influences the result. -/
theorem c2_invalid_range (s : Store) (ev : Event) (rids : List Int)
    (h : ev.start_time ≥ ev.end_time) :
    check_conflicts s ev rids =
      ["Event start time must be before end time."] := by
  unfold check_conflicts
  rw [if_pos h]

theorem c2_invalid_range_witness :
    check_conflicts storeTouch ⟨some 9, "X", 14, 13, ""⟩ [1] =
      ["Event start time must be before end time."] :=
  c2_invalid_range storeTouch ⟨some 9, "X", 14, 13, ""⟩ [1] (by decide)

/-- C3: the checker skips exactly the allocations whose event carries the
candidate's identifier: an allocation of the candidate itself never
produces a message; if every allocation on the queried resources belongs
to the candidate, the result is empty; and a brand-new candidate
(`event_id = none`) never triggers the skip, so every overlapping stored
allocation produces a message. -/
theorem c3_self_exclusion (s : Store) (ev : Event) (n : Int)
    (rids : List Int) (a : EventResourceAllocation) :
    (ev.event_id = some n → a.event_id = n → conflictMsg s ev a = none)
    ∧ (ev.event_id = some n → ev.start_time < ev.end_time →
        (∀ b ∈ s.allocations, b.resource_id ∈ rids → b.event_id = n) →
        check_conflicts s ev rids = [])
    ∧ (ev.event_id = none →
        ∀ other res, findEvent s a.event_id = some other →
          findResource s a.resource_id = some res →
          ev.start_time < other.end_time → ev.end_time > other.start_time →
          conflictMsg s ev a ≠ none) := by
  have hskip : ∀ b : EventResourceAllocation, ev.event_id = some n →
      b.event_id = n → conflictMsg s ev b = none := by
    intro b hev hb
    unfold conflictMsg
    cases hfe : findEvent s b.event_id with
    | none => rfl
    | some other =>
      have hp := List.find?_some hfe
      simp only [decide_eq_true_eq] at hp
      cases hfr : findResource s b.resource_id with
      | none => rfl
      | some res =>
        simp [hp, hb, hev]
  refine ⟨hskip a, ?_, ?_⟩
  · intro hev hlt hall
    unfold check_conflicts
    rw [if_neg (by omega)]
    rw [List.flatMap_eq_nil_iff]
    intro rid hrid
    rw [List.filterMap_eq_nil_iff]
    intro b hb
    rw [List.mem_filter] at hb
    simp only [decide_eq_true_eq] at hb
    exact hskip b hev (hall b hb.1 (hb.2 ▸ hrid))
  · intro hev other res hfe hfr ho1 ho2
    have hp := List.find?_some hfe
    simp only [decide_eq_true_eq] at hp
    rw [conflictMsg_ne_none_iff]
    exact ⟨other, res, hfe, hfr, by rw [hp, hev]; simp, ho1, ho2⟩

theorem c3_self_exclusion_witness :
    conflictMsg storeTouch ⟨some 1, "A2", 8, 12, ""⟩ allocA = none ∧
    check_conflicts ⟨[evA], [resR], [allocA]⟩ ⟨some 1, "A2", 8, 12, ""⟩ [1]
      = [] ∧
    conflictMsg storeTouch ⟨none, "New", 8, 12, ""⟩ allocA ≠ none := by
  refine ⟨?_, ?_, ?_⟩
  · exact (c3_self_exclusion storeTouch ⟨some 1, "A2", 8, 12, ""⟩ 1 [1]
      allocA).1 rfl rfl
  · exact (c3_self_exclusion ⟨[evA], [resR], [allocA]⟩
      ⟨some 1, "A2", 8, 12, ""⟩ 1 [1] allocA).2.1 rfl (by decide) (by decide)
  · exact (c3_self_exclusion storeTouch ⟨none, "New", 8, 12, ""⟩ 1 [1]
      allocA).2.2 rfl evA resR (by decide) (by decide) (by decide) (by decide)

/-- C9: `check_conflicts` is a pure read-only query: as a state
transformer it returns the store unchanged, and the message list is its
only output. -/
theorem c9_check_conflicts_pure (s : Store) (ev : Event) (rids : List Int) :
    (check_conflicts_op s ev rids).1 = s ∧
    (check_conflicts_op s ev rids).2 = check_conflicts s ev rids :=
  ⟨rfl, rfl⟩

/-- C5: the scan visits every unordered index pair of the allocation list
exactly once (the visited pair list is duplicate-free and holds exactly
the pairs `i < j < n`), and a record is emitted for a pair exactly when
both allocations reference the same resource and the associated events
strictly overlap; the record carries the shared resource's name and both
events. -/
theorem c5_scan_pairs (s : Store) (r : ConflictRecord) :
    ((indexPairs s.allocations.length).Nodup ∧
      ∀ i j, (i, j) ∈ indexPairs s.allocations.length ↔
        i < j ∧ j < s.allocations.length)
    ∧ (r ∈ conflict_view s ↔
        ∃ i j, i < j ∧ j < s.allocations.length ∧
          ∃ a1 a2, s.allocations[i]? = some a1 ∧
            s.allocations[j]? = some a2 ∧
            a1.resource_id = a2.resource_id ∧
            ∃ e1 e2 res, findEvent s a1.event_id = some e1 ∧
              findEvent s a2.event_id = some e2 ∧
              findResource s a1.resource_id = some res ∧
              e1.start_time < e2.end_time ∧ e2.start_time < e1.end_time ∧
              r = ⟨res.resource_name, e1, e2⟩) := by
  refine ⟨⟨nodup_indexPairs _, fun i j => mem_indexPairs _ i j⟩, ?_⟩
  simp only [mem_conflict_view, pairRecord_eq_some_iff]

/-- C10: the scanner has no same-event exclusion: two distinct allocation
rows referencing the same resource and the same event, whose event has a
valid range, produce a conflict record pairing the event with itself. -/
theorem c10_duplicate_allocation (s : Store) (i j : Nat)
    (a1 a2 : EventResourceAllocation) (e : Event) (res : Resource)
    (hij : i < j) (hjn : j < s.allocations.length)
    (h1 : s.allocations[i]? = some a1) (h2 : s.allocations[j]? = some a2)
    (hres : a1.resource_id = a2.resource_id)
    (hev : a1.event_id = a2.event_id)
    (hfe : findEvent s a1.event_id = some e)
    (hfr : findResource s a1.resource_id = some res)
    (hvalid : e.start_time < e.end_time) :
    (⟨res.resource_name, e, e⟩ : ConflictRecord) ∈ conflict_view s := by
  rw [mem_conflict_view]
  exact ⟨i, j, hij, hjn, a1, a2, h1, h2,
    (pairRecord_eq_some_iff s a1 a2 _).mpr
      ⟨hres, e, e, res, hfe, hev ▸ hfe, hfr, hvalid, hvalid, rfl⟩⟩

/-- A store holding a duplicate allocation: two allocation rows binding
the same event to the same resource. -/
def storeDup : Store := ⟨[evA], [resR], [allocA, ⟨2, 1, 1⟩]⟩

theorem c10_duplicate_allocation_witness :
    (⟨resR.resource_name, evA, evA⟩ : ConflictRecord) ∈ conflict_view storeDup :=
  c10_duplicate_allocation storeDup 0 1 allocA ⟨2, 1, 1⟩ evA resR
    (by decide) (by decide) (by decide) (by decide) (by decide) (by decide)
    (by decide) (by decide) (by decide)

theorem mem_sortByStart (e : Event) (l : List Event) :
    e ∈ sortByStart l ↔ e ∈ l := by
  induction l with
  | nil => simp [sortByStart]
  | cons x xs ih =>
    unfold sortByStart
    rw [mem_insertByStart]
    simp [ih]

/-- An event used by the report fixtures: four hours on 2025-01-01. -/
def evR : Event := ⟨some 11, "Session", toMicros ⟨2025, 1, 1, 10, 0⟩,
  toMicros ⟨2025, 1, 1, 14, 0⟩, ""⟩

/-- Report fixture: one resource with one allocated four-hour event. -/
def storeReport : Store := ⟨[evR], [resR], [⟨1, 11, 1⟩]⟩

/-- C4: for a report window given as calendar dates (`windowStart` the
start instant of the start date, `windowEnd` the last representable
instant of the end date), the reported rows are the per-resource
aggregates, and each resource's total is the rounded sum of the clipped
in-window hours of the allocations of that resource, per the inclusive
boundary test. -/
theorem c4_window_hours (s : Store) (ss es : String) (sdt edt : DateTimeMin)
    (now : Int) (r : Resource) (rr : ReportRender)
    (hss : strptimeYmd ss = some sdt) (hes : strptimeYmd es = some edt)
    (hrep : utilisation_report s (some ss) (some es) now = Except.ok rr) :
    rr.report_data = s.resources.map (resourceReport s (toMicros sdt)
      (toMicros edt + (usPerDay - 1 : Nat)) now) ∧
    (resourceReport s (toMicros sdt) (toMicros edt + (usPerDay - 1 : Nat))
        now r).total_hours =
      round2 (((s.allocations.filter
          (fun a => a.resource_id = r.resource_id)).map
        (windowContribution s (toMicros sdt)
          (toMicros edt + (usPerDay - 1 : Nat)))).sum) := by
  have hss0 : ss ≠ "" := by
    intro h
    rw [h] at hss
    exact Option.noConfusion hss
  have hes0 : es ≠ "" := by
    intro h
    rw [h] at hes
    exact Option.noConfusion hes
  constructor
  · simp only [utilisation_report, hss, hes] at hrep
    rw [if_neg (by simp [hss0, hes0])] at hrep
    injection hrep with h
    subst h
    rfl
  · rw [resourceReport_eq]

theorem c4_window_hours_witness :
    (resourceReport storeReport (toMicros ⟨2025, 1, 1, 0, 0⟩)
        (toMicros ⟨2025, 1, 1, 0, 0⟩ + (usPerDay - 1 : Nat)) 0
        resR).total_hours =
      round2 (((storeReport.allocations.filter
          (fun a => a.resource_id = resR.resource_id)).map
        (windowContribution storeReport (toMicros ⟨2025, 1, 1, 0, 0⟩)
          (toMicros ⟨2025, 1, 1, 0, 0⟩ + (usPerDay - 1 : Nat)))).sum) :=
  (c4_window_hours storeReport "2025-01-01" "2025-01-01"
    ⟨2025, 1, 1, 0, 0⟩ ⟨2025, 1, 1, 0, 0⟩ 0 resR _
    (by decide) (by decide) rfl).2

/-- A future event (June 2025) on the shared resource. -/
def evFuture : Event := ⟨some 7, "Future", toMicros ⟨2025, 6, 1, 10, 0⟩,
  toMicros ⟨2025, 6, 1, 12, 0⟩, ""⟩

/-- Fixture for the upcoming-booking behaviour: one future event. -/
def storeFuture : Store := ⟨[evFuture], [resR], [⟨1, 7, 1⟩]⟩

/-- C6 (counterexample): with the window 2025-01-01 and the current moment
at 0, the future June event starts at or after the current moment, yet the
resource's upcoming list in the report is empty — the upcoming check is
nested inside the window test, so it is not independent of the
aggregation window. -/
theorem c6_upcoming_counterexample :
    evFuture.start_time ≥ 0 ∧
    ∃ rr, utilisation_report storeFuture (some "2025-01-01")
        (some "2025-01-01") 0 = Except.ok rr ∧
      rr.report_data.map (fun row => row.upcoming) = [[]] := by
  exact ⟨by decide, ⟨_, rfl, by decide⟩⟩

/-- C6 (amended): a resource's upcoming list holds exactly the events of
its allocations that pass the inclusive window test and start at or after
the current moment, sorted by start time ascending; in particular every
such in-window future event is recorded. -/
theorem c6_upcoming_window_gated (s : Store) (ws we now : Int)
    (r : Resource) :
    ((resourceReport s ws we now r).upcoming =
      sortByStart ((s.allocations.filter
          (fun a => a.resource_id = r.resource_id)).filterMap
        (upcomingOf s ws we now)))
    ∧ (resourceReport s ws we now r).upcoming.Pairwise
        (fun a b => a.start_time ≤ b.start_time)
    ∧ ∀ a ∈ s.allocations, a.resource_id = r.resource_id →
        ∀ e, findEvent s a.event_id = some e →
          e.start_time ≤ we → e.end_time ≥ ws → e.start_time ≥ now →
          e ∈ (resourceReport s ws we now r).upcoming := by
  have h1 := resourceReport_eq s ws we now r
  refine ⟨?_, ?_, ?_⟩
  · rw [h1]
  · rw [h1]
    exact pairwise_sortByStart _
  · intro a ha hres e hfe h1w h2w h3w
    rw [h1]
    show e ∈ sortByStart _
    rw [mem_sortByStart]
    rw [List.mem_filterMap]
    refine ⟨a, List.mem_filter.mpr ⟨ha, by simp [hres]⟩, ?_⟩
    simp [upcomingOf, hfe, h1w, h2w, h3w]

theorem c6_upcoming_window_gated_witness :
    evFuture ∈ (resourceReport storeFuture (toMicros ⟨2025, 6, 1, 0, 0⟩)
      (toMicros ⟨2025, 6, 1, 0, 0⟩ + (usPerDay - 1 : Nat)) 0
      resR).upcoming :=
  (c6_upcoming_window_gated storeFuture (toMicros ⟨2025, 6, 1, 0, 0⟩)
    (toMicros ⟨2025, 6, 1, 0, 0⟩ + (usPerDay - 1 : Nat)) 0 resR).2.2
    ⟨1, 7, 1⟩ (by decide) (by decide) evFuture (by decide) (by decide)
    (by decide) (by decide)

/-- C8: committing an event with a duplicate-free selection of resources
(after the conflict check returned empty, with the flushed primary key
fresh) and reading back its allocations yields exactly one allocation per
selected resource, all referencing the event, binding the distinct
requested resources in order. -/
theorem c8_commit_round_trip (s : Store) (title desc : String)
    (st en : Int) (rids : List Int) (nid aid0 : Int)
    (htitle : title ≠ "")
    (hconf : check_conflicts s ⟨none, title, st, en, desc⟩ rids = [])
    (hfresh : ∀ a ∈ s.allocations, a.event_id ≠ nid)
    (hnodup : rids.Nodup) :
    (allocationsOf
        (add_event s title desc (some st) (some en) rids nid aid0).1
        nid).length = rids.length ∧
    (∀ a ∈ allocationsOf
        (add_event s title desc (some st) (some en) rids nid aid0).1 nid,
      a.event_id = nid) ∧
    (allocationsOf
        (add_event s title desc (some st) (some en) rids nid aid0).1
        nid).map (fun a => a.resource_id) = rids ∧
    ((allocationsOf
        (add_event s title desc (some st) (some en) rids nid aid0).1
        nid).map (fun a => a.resource_id)).Nodup := by
  have hstore : (add_event s title desc (some st) (some en) rids
      nid aid0).1 =
      { events := s.events ++
          [{ event_id := some nid, title := title, start_time := st,
             end_time := en, description := desc }],
        resources := s.resources,
        allocations := s.allocations ++ rids.enum.map (fun p =>
          { allocation_id := aid0 + (p.1 : Int), event_id := nid,
            resource_id := p.2 }) } := by
    simp only [add_event]
    rw [if_neg htitle]
    rw [if_neg (by simp [hconf])]
  have halloc : allocationsOf
      (add_event s title desc (some st) (some en) rids nid aid0).1 nid =
      rids.enum.map (fun p =>
        { allocation_id := aid0 + (p.1 : Int), event_id := nid,
          resource_id := p.2 }) := by
    rw [hstore]
    unfold allocationsOf
    rw [List.filter_append]
    rw [List.filter_eq_nil_iff.mpr (by
      intro a ha
      simp only [decide_eq_true_eq]
      exact hfresh a ha)]
    rw [List.nil_append]
    apply List.filter_eq_self.mpr
    intro a ha
    rcases List.mem_map.mp ha with ⟨p, _, rfl⟩
    simp
  rw [halloc]
  refine ⟨?_, ?_, ?_, ?_⟩
  · rw [List.length_map, List.enum_length]
  · intro a ha
    rcases List.mem_map.mp ha with ⟨p, _, rfl⟩
    rfl
  · rw [List.map_map]
    exact List.enum_map_snd rids
  · rw [List.map_map]
    rw [show ((fun a => a.resource_id) ∘ (fun p : Nat × Int =>
      ({ allocation_id := aid0 + (p.1 : Int), event_id := nid,
         resource_id := p.2 } : EventResourceAllocation))) = Prod.snd
      from rfl]
    rw [List.enum_map_snd rids]
    exact hnodup

theorem c8_commit_round_trip_witness :
    (allocationsOf
        (add_event ⟨[], [resR], []⟩ "Party" "" (some 9) (some 10) [1, 2]
          5 1).1 5).length = 2 ∧
    (allocationsOf
        (add_event ⟨[], [resR], []⟩ "Party" "" (some 9) (some 10) [1, 2]
          5 1).1 5).map (fun a => a.resource_id) = [1, 2] := by
  have h := c8_commit_round_trip ⟨[], [resR], []⟩ "Party" "" 9 10 [1, 2]
    5 1 (by decide) (by decide) (by decide) (by decide)
  exact ⟨h.1, h.2.2.1⟩
